import Mathlib

/-!
Verification development for the device-placement and cable-routing core
(`app/placement.py`, `app/routing.py`, with helpers from `app/geometry.py`).

Modelling conventions:
* Coordinates are exact rationals.  Python float square roots
  (`math.sqrt`, `math.hypot`, `shapely` lengths) are modelled by a
  fixed-precision rational square root `qSqrt` (exact on perfect squares);
  all claims proved below are insensitive to the approximation error.
* The external CP-SAT solver (`ortools`) is modelled as a function
  parameter returning either a feasible boolean assignment or `none`
  (infeasible / timed out without an incumbent), as documented by the
  library contract.
* The OpenCV contour fill used for the building footprint
  (`_footprint_mask_from_walls`) is modelled as an oracle parameter
  `FpOracle`; every theorem quantifies over it.
* The in-memory project store `DB` is modelled by `DBState`.
-/

/-- Fixed precision (in bits) used for the rational square-root model of
Python float square roots. -/
def sqrtPrec : ℕ := 12

/-- Newton iteration for the integer square root; the fuel (128) is far
beyond what convergence needs for every number appearing here. -/
def isqrtGo (n : ℕ) : ℕ → ℕ → ℕ
  | 0, g => g
  | f + 1, g =>
    let ng := (g + n / g) / 2
    if ng < g then isqrtGo n f ng else g

/-- Integer square root (kernel-reducible). -/
def isqrt (n : ℕ) : ℕ :=
  if n ≤ 1 then n else isqrtGo n 128 (n / 2 + 1)

/-- Rational square root at `sqrtPrec` bits of precision; models Python
`math.sqrt` on nonnegative rationals (exact on perfect squares). -/
def qSqrt (q : ℚ) : ℚ :=
  if q ≤ 0 then 0
  else (isqrt (q.num.toNat * q.den * 4 ^ sqrtPrec) : ℚ) / ((q.den : ℚ) * 2 ^ sqrtPrec)

/-- Maximum of two rationals, mirroring Python `max`. -/
def maxQ (a b : ℚ) : ℚ := if a ≤ b then b else a

/-- Minimum of two rationals, mirroring Python `min`. -/
def minQ (a b : ℚ) : ℚ := if a ≤ b then a else b

/-- A planar point with rational coordinates. -/
abbrev QPoint := ℚ × ℚ

/-- A line segment given by its two endpoints. -/
abbrev Seg := QPoint × QPoint

/-- Squared Euclidean distance between two points. -/
def distSq (a b : QPoint) : ℚ := (b.1 - a.1) ^ 2 + (b.2 - a.2) ^ 2

/-- Squared length of a segment. -/
def segLenSq (s : Seg) : ℚ := distSq s.1 s.2

/-- Length of a segment (Python float length, modelled via `qSqrt`). -/
def segLen (s : Seg) : ℚ := qSqrt (segLenSq s)

/-- Midpoint of a segment; models `seg.interpolate(0.5, normalized=True)`
for a two-point `LineString`. -/
def segMid (s : Seg) : QPoint := ((s.1.1 + s.2.1) / 2, (s.1.2 + s.2.2) / 2)

/-- Squared distance from point `p` to segment `s` (the exact geometry
behind shapely `seg.distance(p)`; comparisons against a nonnegative
threshold are done on squares, which is equivalent). -/
def segDistSq (s : Seg) (p : QPoint) : ℚ :=
  let dx := s.2.1 - s.1.1
  let dy := s.2.2 - s.1.2
  let len2 := dx ^ 2 + dy ^ 2
  if len2 = 0 then distSq s.1 p
  else
    let t := ((p.1 - s.1.1) * dx + (p.2 - s.1.2) * dy) / len2
    let tc := maxQ 0 (minQ 1 t)
    distSq (s.1.1 + tc * dx, s.1.2 + tc * dy) p

/-- The closed edge list of a polygon ring (consecutive vertices plus the
closing edge); models iterating over `poly.exterior` coordinates, where
shapely repeats the first vertex at the end. -/
def polyEdges (poly : List QPoint) : List Seg := poly.zip (poly.rotate 1)

/-- Twice the signed shoelace area of a polygon ring. -/
def signedArea2 (poly : List QPoint) : ℚ :=
  (polyEdges poly).foldl (fun acc e => acc + (e.1.1 * e.2.2 - e.2.1 * e.1.2)) 0

/-- Polygon area, modelling shapely `poly.area` (always nonnegative). -/
def areaQ (poly : List QPoint) : ℚ := |signedArea2 poly| / 2

/-- Polygon centroid by the standard shoelace formula, modelling shapely
`poly.centroid` for non-degenerate rings. -/
def centroidQ (poly : List QPoint) : QPoint :=
  let s2 := signedArea2 poly
  if s2 = 0 then (0, 0)
  else
    let cx := (polyEdges poly).foldl
      (fun acc e => acc + (e.1.1 + e.2.1) * (e.1.1 * e.2.2 - e.2.1 * e.1.2)) 0
    let cy := (polyEdges poly).foldl
      (fun acc e => acc + (e.1.2 + e.2.2) * (e.1.1 * e.2.2 - e.2.1 * e.1.2)) 0
    (cx / (3 * s2), cy / (3 * s2))

/-- One even-odd ray-crossing test for the horizontal ray from `p`
towards positive x against the edge `(a, b)`. -/
def raySide (p a b : QPoint) : Bool :=
  if a.2 ≤ p.2 ∧ p.2 < b.2 then
    decide ((p.1 - a.1) * (b.2 - a.2) < (p.2 - a.2) * (b.1 - a.1))
  else if b.2 ≤ p.2 ∧ p.2 < a.2 then
    decide ((p.2 - a.2) * (b.1 - a.1) < (p.1 - a.1) * (b.2 - a.2))
  else false

/-- Strict point-in-polygon test by even-odd ray crossing; models shapely
`room.contains(point)` for simple polygons and points off the boundary. -/
def containsPoint (poly : List QPoint) (p : QPoint) : Bool :=
  (polyEdges poly).foldl (fun acc e => if raySide p e.1 e.2 then !acc else acc) false

/-- Point at arc-length `t` along a two-point wall of length `L`; models
shapely `wall.interpolate(t)` (clamped to the segment). -/
def interpolateSeg (s : Seg) (L t : ℚ) : QPoint :=
  if L ≤ 0 then s.1
  else if t ≤ 0 then s.1
  else if L ≤ t then s.2
  else (s.1.1 + t / L * (s.2.1 - s.1.1), s.1.2 + t / L * (s.2.2 - s.1.2))

/-- Loop body of `along_wall_points`: collect points at `t, t+step, ...`
while `t < L - offs`. -/
def along_wall_go (w : Seg) (L step offs : ℚ) : ℕ → ℚ → List QPoint
  | 0, _ => []
  | f + 1, t =>
    if t < L - offs then interpolateSeg w L t :: along_wall_go w L step offs f (t + step)
    else []

/-- `geometry.along_wall_points`: points along a wall every `step` units,
starting at corner offset `offs`. The fuel bounds the iteration count
from above; it never cuts the Python loop short for positive `step`. -/
def along_wall_points (w : Seg) (step offs : ℚ) : List QPoint :=
  let L := segLen w
  along_wall_go w L step offs ((maxQ 0 (L / step)).num.toNat + 2) offs

/-- `geometry.room_walls`: the boundary edges of a room polygon. -/
def room_walls (room : List QPoint) : List Seg := polyEdges room

/-- A placement candidate / selected device: (device type, room id, point),
mirroring `Candidate = Tuple[str, str, Point]`. -/
abbrev Candidate := String × String × QPoint

/-- A computed route: (device type, polyline, reported length), mirroring
the `(t, LineString, length)` triples stored by `route_all`. -/
abbrev Route := String × List QPoint × ℚ

/-- An opening with kind, referenced room ids and the parsed boundary
segment (`None` when `_opening_seg` fails to parse one). -/
structure Opening where
  kind : String
  roomRefs : List String
  seg : Option Seg
  deriving DecidableEq

/-- The per-type rule configuration
`{socket_per_wall_meter, min_switches, socket_max}` read from the external
rules file. -/
structure Rules where
  socket_per_wall_meter : ℚ
  min_switches : ℕ
  socket_max : ℕ

/-- The project store `DB`, keyed by project id.  `openings` models
`DB["structure"][pid]["openings"]`; room polygons are stored as vertex
lists (the canonical shape after `coerce_polygon`). -/
structure DBState where
  rooms : String → List (List QPoint)
  devices : String → List Candidate
  candidates : String → List Candidate
  routes : String → List Route
  openings : String → List Opening

/-- Decimal digit as a string (helper for `room_id_of`). -/
def digitStr (n : ℕ) : String :=
  if n = 0 then "0" else if n = 1 then "1" else if n = 2 then "2"
  else if n = 3 then "3" else if n = 4 then "4" else if n = 5 then "5"
  else if n = 6 then "6" else if n = 7 then "7" else if n = 8 then "8" else "9"

/-- `_room_id`: the id `room_{idx:03d}` assigned to the room at index
`idx` (zero-padded to three digits; wider indices keep all digits). -/
def room_id_of (i : ℕ) : String :=
  if i < 1000 then
    "room_" ++ digitStr (i / 100 % 10) ++ digitStr (i / 10 % 10) ++ digitStr (i % 10)
  else "room_" ++ toString i

/-- `_rooms_as_polygons`: room polygons of a project normalised to vertex
lists, keeping polygons with at least 3 vertices and area above 1.
(The shapely `buffer(0)` repair is the identity on the valid simple
polygons modelled here.) -/
def rooms_as_polygons (st : DBState) (pid : String) : List (List QPoint) :=
  (st.rooms pid).filter (fun poly => decide (3 ≤ poly.length) && decide (1 < areaQ poly))

/-- `_room_size_hint`: `max(1, sqrt(area))` of a room. -/
def room_size_hint (room : List QPoint) : ℚ := maxQ 1 (qSqrt (areaQ room))

/-- The two perpendicular offset points tried by `_offset_inside`:
`base` shifted by `max(0.02 * sqrt(area), 0.2)` along both normals of
`seg` (the `hypot(dx, dy) or 1.0` degenerate-segment guard included). -/
def offset_cands (room : List QPoint) (base : QPoint) (seg : Seg) : QPoint × QPoint :=
  let dx := seg.2.1 - seg.1.1
  let dy := seg.2.2 - seg.1.2
  let L0 := qSqrt (dx ^ 2 + dy ^ 2)
  let L := if L0 = 0 then 1 else L0
  let nx := -dy / L
  let ny := dx / L
  let off := maxQ ((2 / 100) * room_size_hint room) (2 / 10)
  ((base.1 + nx * off, base.2 + ny * off), (base.1 - nx * off, base.2 - ny * off))

/-- `_offset_inside`: shift `base` perpendicular to `seg` into the room;
try both normal directions and fall back to `base` itself. -/
def offset_inside (room : List QPoint) (base : QPoint) (seg : Seg) : QPoint :=
  let pr := offset_cands room base seg
  if containsPoint room pr.1 then pr.1
  else if containsPoint room pr.2 then pr.2
  else base

/-- `_openings_for_room`: the openings of the project whose `roomRefs`
contain the given room id. -/
def openings_for_room (st : DBState) (pid rid : String) : List Opening :=
  (st.openings pid).filter (fun o => rid ∈ o.roomRefs)

/-- Pick the longest of the door segments (strictly longer wins, first
wins ties), mirroring the `best_len` scan in `generate_candidates`. -/
def pickLongest (segs : List Seg) : Option Seg :=
  (segs.foldl
    (fun acc s =>
      if acc.1 < segLen s then (segLen s, some s) else acc)
    ((-1 : ℚ), none)).2

/-- Candidate generation for one room (`generate_candidates` loop body):
outlet candidates along every wall away from openings, then one switch
candidate near the longest door (or at the centroid). -/
def gen_room (rules : Rules) (st : DBState) (pid : String) (idx : ℕ)
    (room : List QPoint) : List Candidate :=
  let rid := room_id_of idx
  let step := 1 / maxQ rules.socket_per_wall_meter (2 / 10)
  let openings := openings_for_room st pid rid
  let opening_segs := openings.filterMap Opening.seg
  let clearance := maxQ ((3 / 100) * room_size_hint room) (25 / 100)
  let sockets := (room_walls room).flatMap (fun w =>
    (along_wall_points w step (3 / 10)).filterMap (fun p =>
      if !opening_segs.isEmpty && opening_segs.any (fun s => decide (segDistSq s p < clearance ^ 2))
      then none else some (("SOCKET", rid, p) : Candidate)))
  let door_openings := openings.filter (fun o => o.kind == "door")
  if !door_openings.isEmpty then
    match pickLongest (door_openings.filterMap Opening.seg) with
    | some best => sockets ++ [("SWITCH", rid, offset_inside room (segMid best) best)]
    | none => sockets ++ [("SWITCH", rid, centroidQ room)]
  else sockets ++ [("SWITCH", rid, centroidQ room)]

/-- `placement.generate_candidates`: deterministic candidate generation
over the project's normalised rooms. -/
def generate_candidates (rules : Rules) (st : DBState) (pid : String) : List Candidate :=
  (rooms_as_polygons st pid).enum.flatMap (fun ir => gen_room rules st pid ir.1 ir.2)

/-- Candidates selected by a boolean assignment (one variable per
candidate, in order). -/
def selectedOf (cands : List Candidate) (b : List Bool) : List Candidate :=
  (cands.zip b).filterMap (fun cb => if cb.2 then some cb.1 else none)

/-- Number of selected devices of a given type in a given room. -/
def countRT (sel : List Candidate) (rid t : String) : ℕ :=
  (sel.filter (fun c => c.1 == t && c.2.1 == rid)).length

/-- The distinct room ids appearing in the candidate list (the CP model
builds one constraint group per such id). -/
def roomIdsOf (cands : List Candidate) : List String := (cands.map (fun c => c.2.1)).dedup

/-- There is a candidate of type `t` for room `rid`. -/
def hasCand (cands : List Candidate) (rid t : String) : Prop :=
  ∃ c ∈ cands, c.1 = t ∧ c.2.1 = rid

/-- Feasibility of an assignment for the CP model of `select_devices`:
per room, at least 1 selected switch when a switch candidate exists and
at most 6 selected outlets when an outlet candidate exists (the literal
constants of the source). -/
def Feasible (cands : List Candidate) (b : List Bool) : Prop :=
  b.length = cands.length ∧
  ∀ rid ∈ roomIdsOf cands,
    (hasCand cands rid "SWITCH" → 1 ≤ countRT (selectedOf cands b) rid "SWITCH") ∧
    (hasCand cands rid "SOCKET" → countRT (selectedOf cands b) rid "SOCKET" ≤ 6)

/-- The bounded-time CP-SAT solve, modelled as a function from the
candidate list (which determines the CP model) to an optional assignment;
`none` models the INFEASIBLE/UNKNOWN statuses. -/
abbrev Solver := List Candidate → Option (List Bool)

/-- Contract of the external solver: any returned assignment satisfies
the model's constraints. -/
def SolverOk (solver : Solver) : Prop :=
  ∀ cands b, solver cands = some b → Feasible cands b

/-- The solver time budget set by `solver.parameters.max_time_in_seconds`. -/
def max_time_in_seconds : ℚ := 2

/-- `placement.select_devices`: select candidates via the solver, store
the selection as the project's devices and stash the candidate list. -/
def select_devices (st : DBState) (pid : String) (cands : List Candidate)
    (solver : Solver) : List Candidate × DBState :=
  let selected := match solver cands with
    | some b => selectedOf cands b
    | none => []
  (selected,
    { st with
      devices := fun q => if q = pid then selected else st.devices q,
      candidates := fun q => if q = pid then cands else st.candidates q })

/-- Greedy mask that selects exactly the first switch candidate of every
room and nothing else (a concrete always-feasible solver used as a
witness for the solver contract). -/
def fsMask : List Candidate → List String → List Bool
  | [], _ => []
  | c :: rest, done =>
    if c.1 = "SWITCH" ∧ c.2.1 ∉ done then true :: fsMask rest (c.2.1 :: done)
    else false :: fsMask rest done

/-- The concrete first-switch-per-room solver. -/
def fsSolver : Solver := fun cands => some (fsMask cands [])

/-- A raster mask (grayscale byte image) with its dimensions; pixel access
is a total function, consulted only in bounds. -/
structure Mask where
  h : ℕ
  w : ℕ
  px : ℕ → ℕ → ℕ

/-- A boolean occupancy/bitmap grid (`True` = set/blocked at `[y, x]`). -/
structure Grid where
  h : ℕ
  w : ℕ
  blocked : ℕ → ℕ → Bool

/-- Oracle modelling `_footprint_mask_from_walls` (OpenCV external
contour fill, including its `None` results). -/
abbrev FpOracle := Grid → Option Grid

/-- Thresholding `walls_mask > 0`. -/
def boolMask (m : Mask) : Grid := ⟨m.h, m.w, fun y x => decide (0 < m.px y x)⟩

/-- The `fs == 0` test used for the free-space/footprint exclusion. -/
def zeroMask (m : Mask) : Grid := ⟨m.h, m.w, fun y x => decide (m.px y x = 0)⟩

/-- Morphological dilation by a square kernel of radius `d`
(`cv2.dilate` with a `(2d+1) x (2d+1)` rectangle). -/
def dilateG (m : Grid) (d : ℕ) : Grid :=
  ⟨m.h, m.w, fun y x =>
    (List.range (2 * d + 1)).any (fun i =>
      (List.range (2 * d + 1)).any (fun j =>
        let yy : ℤ := (y : ℤ) + i - d
        let xx : ℤ := (x : ℤ) + j - d
        decide (0 ≤ yy) && decide (yy < (m.h : ℤ)) && decide (0 ≤ xx) &&
          decide (xx < (m.w : ℤ)) && m.blocked yy.toNat xx.toNat))⟩

/-- Nearest-neighbour downsampling to `nh x nw` (`cv2.resize` with
`INTER_NEAREST`, modelled by floor index scaling). -/
def resizeG (m : Grid) (nh nw : ℕ) : Grid :=
  ⟨nh, nw, fun y x => m.blocked (y * m.h / nh) (x * m.w / nw)⟩

/-- `routing._build_occupancy`: dilate the walls, derive the footprint
when no free-space mask is given, downsample, and block everything
outside the free space / footprint.  Returns the grid and the effective
downsample factor. -/
def build_occupancy (walls : Mask) (free : Option Mask) (fpO : FpOracle)
    (downsample dilate_px : ℕ) : Grid × ℕ :=
  let m0 := boolMask walls
  let m := if 0 < dilate_px then dilateG m0 dilate_px else m0
  let fp : Option Grid := match free with
    | none => fpO m
    | some _ => none
  let ds := max 2 downsample
  let nh := max 1 (walls.h / ds)
  let nw := max 1 (walls.w / ds)
  let msmall := resizeG m nh nw
  match free with
  | some fs => (⟨nh, nw, fun y x => msmall.blocked y x || (resizeG (zeroMask fs) nh nw).blocked y x⟩, ds)
  | none =>
    match fp with
    | some f => (⟨nh, nw, fun y x => msmall.blocked y x || !((resizeG f nh nw).blocked y x)⟩, ds)
    | none => (⟨nh, nw, msmall.blocked⟩, ds)

/-- A grid cell `(x, y)` (possibly out of bounds before checks). -/
abbrev Cell := ℤ × ℤ

/-- Bounds check `0 <= x < w and 0 <= y < h`. -/
def inb (g : Grid) (c : Cell) : Bool :=
  decide (0 ≤ c.1) && decide (c.1 < (g.w : ℤ)) && decide (0 ≤ c.2) && decide (c.2 < (g.h : ℤ))

/-- Occupancy lookup `occ[y, x]` (meaningful in bounds). -/
def blk (g : Grid) (c : Cell) : Bool := g.blocked c.2.toNat c.1.toNat

/-- A cell that is in bounds and not blocked. -/
def freeAt (g : Grid) (c : Cell) : Bool := inb g c && !blk g c

/-- The 8-connected neighbour steps with their costs: orthogonal cost 1,
diagonal cost `sqrt 2`, in source order. -/
def nbrs : List (ℤ × ℤ × ℚ) :=
  [(1, 0, 1), (-1, 0, 1), (0, 1, 1), (0, -1, 1),
   (1, 1, qSqrt 2), (1, -1, qSqrt 2), (-1, 1, qSqrt 2), (-1, -1, qSqrt 2)]

/-- The Euclidean heuristic `math.hypot` between two cells. -/
def heur (a b : Cell) : ℚ := qSqrt (((a.1 - b.1) ^ 2 + (a.2 - b.2) ^ 2 : ℤ) : ℚ)

/-- First-match association lookup (Python dict access). -/
def alookup {α : Type} (l : List (Cell × α)) (c : Cell) : Option α :=
  (l.find? (fun e => e.1 == c)).map (fun e => e.2)

/-- Association lookup with default (`dict.get(k, d)`). -/
def alookupD {α : Type} (l : List (Cell × α)) (c : Cell) (d : α) : α :=
  (alookup l c).getD d

/-- Lexicographic order on heap entries `(f, g, (x, y))`, matching Python
tuple comparison in `heapq`. -/
def prioLt (a b : ℚ × ℚ × Cell) : Bool :=
  decide (a.1 < b.1) ||
    (a.1 == b.1 && (decide (a.2.1 < b.2.1) ||
      (a.2.1 == b.2.1 && (decide (a.2.2.1 < b.2.2.1) ||
        (a.2.2.1 == b.2.2.1 && decide (a.2.2.2 < b.2.2.2))))))

/-- Pop the smallest entry of the open list (`heapq.heappop`): the first
minimal element and the list without it. -/
def popMin (l : List (ℚ × ℚ × Cell)) : Option ((ℚ × ℚ × Cell) × List (ℚ × ℚ × Cell)) :=
  match l with
  | [] => none
  | hd :: tl =>
    let m := tl.foldl (fun a b => if prioLt b a then b else a) hd
    some (m, l.erase m)

/-- Mutable state of the A* loop: open list, g-scores, parent pointers
and the closed set. -/
structure AS where
  openl : List (ℚ × ℚ × Cell)
  gsc : List (Cell × ℚ)
  cameFrom : List (Cell × Cell)
  closed : List Cell

/-- Relax one neighbour step from `cur` (popped with g-value `g`):
bounds/occupancy checks, then the `ng < gscore.get(nxt, 1e18)` update
with push, exactly as in `_astar`. -/
def relax (g0 : Grid) (gl : Cell) (cur : Cell) (g : ℚ) (st : AS) (nb : ℤ × ℤ × ℚ) : AS :=
  let nxt : Cell := (cur.1 + nb.1, cur.2 + nb.2.1)
  if inb g0 nxt && !blk g0 nxt then
    let ng := g + nb.2.2
    if ng < alookupD st.gsc nxt ((10 : ℚ) ^ 18) then
      { openl := (ng + heur nxt gl, ng, nxt) :: st.openl,
        gsc := (nxt, ng) :: st.gsc,
        cameFrom := (nxt, cur) :: st.cameFrom,
        closed := st.closed }
    else st
  else st

/-- Expand a popped cell over all 8 neighbour steps. -/
def expand (g0 : Grid) (gl : Cell) (cur : Cell) (g : ℚ) (st : AS) : AS :=
  nbrs.foldl (relax g0 gl cur g) st

/-- Path reconstruction by following `came_from` links backwards from the
goal; the Python `while` loop, with fuel (it returns `none` only in the
cyclic case in which the Python loop would not terminate). -/
def reconPath (cf : List (Cell × Cell)) : ℕ → Cell → List Cell → Option (List Cell)
  | 0, _, _ => none
  | f + 1, cur, acc =>
    match alookup cf cur with
    | none => some (cur :: acc)
    | some p => reconPath cf f p (cur :: acc)

/-- The A* main loop of `_astar`: pop the minimum, skip closed cells,
reconstruct at the goal, otherwise expand.  The fuel passed by `astar`
dominates the loop's iteration count (at most one expansion per cell and
at most 8 pushes per expansion). -/
def astarLoop (g0 : Grid) (gl : Cell) : ℕ → AS → Option (List Cell)
  | 0, _ => none
  | fuel + 1, st =>
    match popMin st.openl with
    | none => none
    | some (e, rest) =>
      if e.2.2 ∈ st.closed then astarLoop g0 gl fuel { st with openl := rest }
      else
        let st' : AS := { st with openl := rest, closed := e.2.2 :: st.closed }
        if e.2.2 = gl then reconPath st'.cameFrom (st'.cameFrom.length + 1) gl []
        else astarLoop g0 gl fuel (expand g0 gl e.2.2 e.2.1 st')

/-- `routing._astar`: A* over the 8-connected grid; `none` when start or
goal is out of bounds or blocked, or when no path exists. -/
def astar (g0 : Grid) (s gl : Cell) : Option (List Cell) :=
  if !inb g0 s || !inb g0 gl then none
  else if blk g0 s || blk g0 gl then none
  else astarLoop g0 gl (8 * g0.h * g0.w + 2) ⟨[(heur s gl, 0, s)], [(s, 0)], [], []⟩

/-- Ascending integer range `[a, a+1, ..., b]` (Python `range(a, b+1)`). -/
def rangeZ (a b : ℤ) : List ℤ := (List.range (b - a + 1).toNat).map (fun i => a + i)

/-- Return the cell if free (`_nearest_free_cell` per-cell test). -/
def tryCell (g0 : Grid) (c : Cell) : Option Cell := if freeAt g0 c then some c else none

/-- One ring of the `_nearest_free_cell` scan at Chebyshev radius `r`,
in the source's exact iteration order: first `dx` from `-r` to `r` with
`dy` in `(-r, r)`, then `dy` from `-r+1` to `r-1` with `dx` in `(-r, r)`. -/
def ringScan (g0 : Grid) (c : Cell) (r : ℕ) : Option Cell :=
  let rz : ℤ := r
  match
    (rangeZ (-rz) rz).findSome? (fun dx =>
      [(-rz : ℤ), rz].findSome? (fun dy => tryCell g0 (c.1 + dx, c.2 + dy)))
  with
  | some hit => some hit
  | none =>
    (rangeZ (-rz + 1) (rz - 1)).findSome? (fun dy =>
      [(-rz : ℤ), rz].findSome? (fun dx => tryCell g0 (c.1 + dx, c.2 + dy)))

/-- `routing._nearest_free_cell`: the cell itself if free, else a ring
search of radius `1..max_r`. -/
def nearest_free_cell (g0 : Grid) (c : Cell) (max_r : ℕ) : Option Cell :=
  if freeAt g0 c then some c
  else (List.range max_r).findSome? (fun r0 => ringScan g0 c (r0 + 1))

/-- Floor of a rational (used by half-to-even rounding). -/
def floorQ (q : ℚ) : ℤ := q.num.fdiv (q.den : ℤ)

/-- Python 3 built-in `round`: round half to even. -/
def pyRound (q : ℚ) : ℤ :=
  let f := floorQ q
  let r := q - (f : ℚ)
  if r < 1 / 2 then f
  else if 1 / 2 < r then f + 1
  else if f % 2 = 0 then f else f + 1

/-- `routing._point_to_cell`. -/
def point_to_cell (p : QPoint) (ds : ℕ) : Cell :=
  (pyRound (p.1 / (ds : ℚ)), pyRound (p.2 / (ds : ℚ)))

/-- `routing._cell_to_point`: the centre of a grid cell. -/
def cell_to_point (c : Cell) (ds : ℕ) : QPoint :=
  ((c.1 : ℚ) * ds + (ds : ℚ) / 2, (c.2 : ℚ) * ds + (ds : ℚ) / 2)

/-- `coords[0] = ...` on a list (no effect on the empty list, which never
occurs in the source). -/
def replaceFirst {α : Type} (l : List α) (a : α) : List α :=
  match l with
  | [] => []
  | _ :: t => a :: t

/-- `coords[-1] = ...` on a list. -/
def replaceLast {α : Type} (l : List α) (a : α) : List α :=
  match l with
  | [] => []
  | _ :: _ => l.dropLast ++ [a]

/-- Polyline length (shapely `LineString.length`), as a sum of `qSqrt`
segment lengths; it is positive exactly when some two consecutive
vertices differ. -/
def polylineLength : List QPoint → ℚ
  | [] => 0
  | [_] => 0
  | a :: b :: t => qSqrt (distSq a b) + polylineLength (b :: t)

/-- Division of the raw length by `pxPerMeter` when a scale is known
(`_get_px_per_meter` only ever yields positive scales). -/
def applyScale (ppm : Option ℚ) (len : ℚ) : ℚ :=
  match ppm with
  | some v => len / v
  | none => len

/-- `DEFAULT_PANEL_ANCHOR_PX`: the fixed panel anchor `(30.0, 30.0)`. -/
def DEFAULT_PANEL_ANCHOR_PX : QPoint := (30, 30)

/-- The retry ladder of `(downsample, dilate)` attempts, in source order. -/
def attempts : List (ℕ × ℕ) := [(8, 3), (8, 2), (6, 2), (6, 1), (4, 1), (4, 0)]

/-- One iteration of the per-device attempt loop of `route_all`: build
the occupancy grid, snap device and panel cells (radii 35 and 60), run
A*, reject paths of fewer than two cells, replace the end points with
the exact device/panel coordinates, and keep the polyline only when its
length is positive; `none` stands for every `continue` path of the loop. -/
def attempt_route (wm : Mask) (free : Option Mask) (fpO : FpOracle)
    (p panel : QPoint) (a : ℕ × ℕ) : Option (List QPoint) :=
  match nearest_free_cell (build_occupancy wm free fpO a.1 a.2).1
          (point_to_cell p (build_occupancy wm free fpO a.1 a.2).2) 35,
        nearest_free_cell (build_occupancy wm free fpO a.1 a.2).1
          (point_to_cell panel (build_occupancy wm free fpO a.1 a.2).2) 60 with
  | some s, some g =>
    match astar (build_occupancy wm free fpO a.1 a.2).1 s g with
    | some path =>
      if path.length < 2 then none
      else
        if 0 < polylineLength (replaceLast (replaceFirst
            (path.map (fun c => cell_to_point c (build_occupancy wm free fpO a.1 a.2).2)) p) panel)
        then some (replaceLast (replaceFirst
            (path.map (fun c => cell_to_point c (build_occupancy wm free fpO a.1 a.2).2)) p) panel)
        else none
    | none => none
  | _, _ => none

/-- The attempt loop itself: the `break` on the first accepted polyline,
the `continue` otherwise. -/
def tryAttempts (wm : Mask) (free : Option Mask) (fpO : FpOracle)
    (p panel : QPoint) : List (ℕ × ℕ) → Option (List QPoint)
  | [] => none
  | a :: rest =>
    (attempt_route wm free fpO p panel a).orElse
      (fun _ => tryAttempts wm free fpO p panel rest)

/-- One device's route in the grid branch of `route_all`: the first
successful attempt, or the straight two-point fallback. -/
def route_device (wm : Mask) (free : Option Mask) (fpO : FpOracle)
    (ppm : Option ℚ) (d : Candidate) : Route :=
  let p := d.2.2
  let pts := (tryAttempts wm free fpO p DEFAULT_PANEL_ANCHOR_PX attempts).getD
    [p, DEFAULT_PANEL_ANCHOR_PX]
  (d.1, pts, applyScale ppm (polylineLength pts))

/-- The straight two-point fallback route used when no readable walls
mask exists. -/
def straight_route (ppm : Option ℚ) (d : Candidate) : Route :=
  let p := d.2.2
  (d.1, [p, DEFAULT_PANEL_ANCHOR_PX],
    applyScale ppm (polylineLength [p, DEFAULT_PANEL_ANCHOR_PX]))

/-- `routing.route_all` over normalised devices: straight fallbacks when
the walls mask is missing or unreadable (`walls = none`), otherwise the
grid router per device.  (The source also reads openings and rooms here
but never uses them; the panel anchor is always the fixed default.) -/
def route_all (devices : List Candidate) (walls : Option Mask)
    (free : Option Mask) (fpO : FpOracle) (ppm : Option ℚ) : List Route :=
  if devices.isEmpty then []
  else
    match walls with
    | none => devices.map (straight_route ppm)
    | some wm => devices.map (route_device wm free fpO ppm)

/-- The retry ladder exactly as the specification lists it. -/
def specLadder : List (ℕ × ℕ) := [(8, 3), (8, 2), (6, 2), (6, 1), (4, 1), (4, 0)]

/-- The snap radius the specification gives for the device cell. -/
def specDeviceRadius : ℕ := 35

/-- The snap radius the specification gives for the panel cell. -/
def specPanelRadius : ℕ := 60

/-- The neighbour steps and costs as the specification words them:
8-connected, orthogonal cost 1.0, diagonal cost `sqrt 2`. -/
def specNbrs : List (ℤ × ℤ × ℚ) :=
  [(1, 0, 1), (-1, 0, 1), (0, 1, 1), (0, -1, 1),
   (1, 1, qSqrt 2), (1, -1, qSqrt 2), (-1, 1, qSqrt 2), (-1, -1, qSqrt 2)]

/-- One grid attempt as the specification describes it: snap both cells
to the nearest free cell within the stated radii, run A*, replace the
first/last grid-cell centres by the exact device/panel coordinates, and
succeed iff the resulting polyline has nonzero length. -/
def grid_attempt_spec (wm : Mask) (free : Option Mask) (fpO : FpOracle)
    (p panel : QPoint) (pr : ℕ × ℕ) : Option (List QPoint) :=
  match nearest_free_cell (build_occupancy wm free fpO pr.1 pr.2).1
          (point_to_cell p (build_occupancy wm free fpO pr.1 pr.2).2) specDeviceRadius,
        nearest_free_cell (build_occupancy wm free fpO pr.1 pr.2).1
          (point_to_cell panel (build_occupancy wm free fpO pr.1 pr.2).2) specPanelRadius with
  | some s, some g =>
    match astar (build_occupancy wm free fpO pr.1 pr.2).1 s g with
    | some path =>
      if 0 < polylineLength (replaceLast (replaceFirst
          (path.map (fun c => cell_to_point c (build_occupancy wm free fpO pr.1 pr.2).2)) p) panel)
      then some (replaceLast (replaceFirst
          (path.map (fun c => cell_to_point c (build_occupancy wm free fpO pr.1 pr.2).2)) p) panel)
      else none
    | none => none
  | _, _ => none

/-- A device route as the specification describes it: the first ladder
attempt that yields a nonzero-length polyline, the straight fallback
otherwise, with the length divided by the scale when one is known. -/
def route_device_spec (wm : Mask) (free : Option Mask) (fpO : FpOracle)
    (ppm : Option ℚ) (d : Candidate) : Route :=
  let p := d.2.2
  let pts := (specLadder.findSome? (grid_attempt_spec wm free fpO p DEFAULT_PANEL_ANCHOR_PX)).getD
    [p, DEFAULT_PANEL_ANCHOR_PX]
  (d.1, pts, applyScale ppm (polylineLength pts))

/-- Two cells are 8-adjacent: they differ by one of the eight unit king
moves. -/
def adj8 (a b : Cell) : Prop :=
  (b.1 - a.1, b.2 - a.2) ∈
    ([(1, 0), (-1, 0), (0, 1), (0, -1), (1, 1), (1, -1), (-1, 1), (-1, -1)] : List (ℤ × ℤ))

/-- Pairwise invariant of the `came_from` map: every recorded pair links
a free in-bounds child to a free in-bounds, 8-adjacent parent; every
parent is the start or has a parent itself; the start has no parent. -/
def goodCF (g0 : Grid) (s : Cell) (cf : List (Cell × Cell)) : Prop :=
  (∀ pr ∈ cf, freeAt g0 pr.1 = true ∧ freeAt g0 pr.2 = true ∧ adj8 pr.2 pr.1) ∧
  (∀ pr ∈ cf, pr.2 = s ∨ alookup cf pr.2 ≠ none) ∧
  alookup cf s = none

/-- Loop invariant of `astarLoop`: the `came_from` invariant, plus every
open-list entry holding a free cell with a nonnegative g-value and a
parent chain, the start keeping g-score 0, and all g-scores nonnegative. -/
def AInv (g0 : Grid) (s : Cell) (st : AS) : Prop :=
  goodCF g0 s st.cameFrom ∧
  (∀ e ∈ st.openl, freeAt g0 e.2.2 = true ∧ 0 ≤ e.2.1 ∧
    (e.2.2 = s ∨ alookup st.cameFrom e.2.2 ≠ none)) ∧
  alookup st.gsc s = some 0 ∧
  (∀ pr ∈ st.gsc, 0 ≤ pr.2)

/-- Empty project store. -/
def st0 : DBState := ⟨fun _ => [], fun _ => [], fun _ => [], fun _ => [], fun _ => []⟩

/-- A 10 x 10 square room used in the concrete scenarios. -/
def squareRoom : List QPoint := [(0, 0), (10, 0), (10, 10), (0, 10)]

/-- A door opening referencing `room_000` whose segment lies away from
the square room, so that neither perpendicular offset is inside. -/
def farDoor : Opening := ⟨"door", ["room_000"], some ((20, 0), (20, 10))⟩

/-- Default rule configuration (`socket_per_wall_meter = 0.3`,
`min_switches = 1`, `socket_max = 6`). -/
def rulesD : Rules := ⟨3 / 10, 1, 6⟩

/-- A rule configuration demanding two switches per room. -/
def rules2 : Rules := ⟨3 / 10, 2, 6⟩

/-- Project store with the square room and the far door under id `p`. -/
def st6 : DBState :=
  ⟨fun q => if q = "p" then [squareRoom] else [],
   fun _ => [], fun _ => [], fun _ => [],
   fun q => if q = "p" then [farDoor] else []⟩

/-- A second store that agrees with `st6` on project `p` but differs on
every other project id. -/
def st7 : DBState :=
  ⟨fun q => if q = "p" then [squareRoom] else [squareRoom],
   fun _ => [], fun _ => [], fun _ => [],
   fun q => if q = "p" then [farDoor] else [farDoor]⟩

/-- Two switch candidates in the same room. -/
def cands2 : List Candidate :=
  [("SWITCH", "room_000", (1, 1)), ("SWITCH", "room_000", (2, 2))]

/-- A single socket candidate. -/
def c0 : Candidate := ("SOCKET", "room_000", (3, 4))

/-- A single normalised device. -/
def dev0 : Candidate := ("SOCKET", "room_000", (1, 2))

/-- Footprint oracle returning no footprint. -/
def fpO0 : FpOracle := fun _ => none

/-- The all-blocked 1 x 1 walls raster of the degenerate scenario. -/
def allBlocked1 : Mask := ⟨1, 1, fun _ _ => 255⟩

/-- A free 1 x 2 grid for the concrete A* run. -/
def g2 : Grid := ⟨1, 2, fun _ _ => false⟩

set_option maxRecDepth 40000

theorem selectedOf_cons (c : Candidate) (l : List Candidate) (b : Bool) (bs : List Bool) :
    selectedOf (c :: l) (b :: bs) = if b then c :: selectedOf l bs else selectedOf l bs := by
  cases b <;> simp [selectedOf]

theorem fsMask_switch_only : ∀ (l : List Candidate) (done : List String),
    ∀ c ∈ selectedOf l (fsMask l done), c.1 = "SWITCH" := by
  intro l
  induction l with
  | nil => intro done c hc; simp [selectedOf] at hc
  | cons a tl ih =>
    intro done c hc
    by_cases ha : a.1 = "SWITCH" ∧ a.2.1 ∉ done
    · rw [fsMask, if_pos ha, selectedOf_cons, if_pos rfl] at hc
      rcases List.mem_cons.mp hc with rfl | hc
      · exact ha.1
      · exact ih _ c hc
    · rw [fsMask, if_neg ha, selectedOf_cons, if_neg (by simp)] at hc
      exact ih _ c hc

theorem fsMask_covers : ∀ (l : List Candidate) (done : List String) (rid : String),
    rid ∉ done → (∃ c ∈ l, c.1 = "SWITCH" ∧ c.2.1 = rid) →
    ∃ c ∈ selectedOf l (fsMask l done), c.1 = "SWITCH" ∧ c.2.1 = rid := by
  intro l
  induction l with
  | nil => intro done rid _ h; simp at h
  | cons a tl ih =>
    intro done rid hrid h
    obtain ⟨c, hc, hcs, hcr⟩ := h
    by_cases ha : a.1 = "SWITCH" ∧ a.2.1 ∉ done
    · rw [fsMask, if_pos ha, selectedOf_cons, if_pos rfl]
      by_cases har : a.2.1 = rid
      · exact ⟨a, List.mem_cons_self _ _, ha.1, har⟩
      · rcases List.mem_cons.mp hc with heq | hc'
        · exact absurd (heq ▸ hcr) har
        · obtain ⟨c', hc'', hp⟩ :=
            ih (a.2.1 :: done) rid
              (by
                intro hmem
                rcases List.mem_cons.mp hmem with heq | hmem'
                · exact har heq.symm
                · exact hrid hmem')
              ⟨c, hc', hcs, hcr⟩
          exact ⟨c', List.mem_cons_of_mem _ hc'', hp⟩
    · rw [fsMask, if_neg ha, selectedOf_cons, if_neg (by simp)]
      rcases List.mem_cons.mp hc with heq | hc'
      · subst heq
        exact absurd ⟨hcs, fun hd => hrid (hcr ▸ hd)⟩ ha
      · exact ih done rid hrid ⟨c, hc', hcs, hcr⟩

theorem fsMask_len : ∀ (l : List Candidate) (done : List String), (fsMask l done).length = l.length := by
  intro l
  induction l with
  | nil => intro done; rfl
  | cons a tl ih =>
    intro done
    by_cases ha : a.1 = "SWITCH" ∧ a.2.1 ∉ done
    · rw [fsMask, if_pos ha]; simp [ih]
    · rw [fsMask, if_neg ha]; simp [ih]

theorem count_pos_of_mem (sel : List Candidate) (c : Candidate) (rid t : String)
    (hmem : c ∈ sel) (ht : c.1 = t) (hr : c.2.1 = rid) : 1 ≤ countRT sel rid t := by
  have : c ∈ sel.filter (fun c => c.1 == t && c.2.1 == rid) := by
    simp [List.mem_filter, hmem, ht, hr]
  have hlen := List.length_pos.mpr (List.ne_nil_of_mem this)
  simpa [countRT] using hlen

theorem count_zero_of_switch_only (sel : List Candidate)
    (h : ∀ c ∈ sel, c.1 = "SWITCH") (rid : String) : countRT sel rid "SOCKET" = 0 := by
  have : sel.filter (fun c => c.1 == "SOCKET" && c.2.1 == rid) = [] := by
    apply List.filter_eq_nil_iff.mpr
    intro c hc
    have := h c hc
    simp [this]
  simp [countRT, this]

theorem fsSolverOk : SolverOk fsSolver := by
  intro cands b h
  have hb : b = fsMask cands [] := by
    simpa [fsSolver] using h.symm
  subst hb
  constructor
  · exact fsMask_len cands []
  · intro rid _
    constructor
    · intro hs
      rcases fsMask_covers cands [] rid (List.not_mem_nil rid) hs with ⟨c, hc, hcs, hcr⟩
      exact count_pos_of_mem _ c rid _ hc hcs hcr
    · intro _
      rw [count_zero_of_switch_only _ (fsMask_switch_only cands []) rid]
      omega

/-- C2 amended -/
theorem select_devices_respects_hardcoded_constraints :
    ∀ (st : DBState) (pid : String) (solver : Solver), SolverOk solver →
    ∀ (cands : List Candidate) (b : List Bool), solver cands = some b →
    ∀ rid ∈ roomIdsOf cands,
      (hasCand cands rid "SWITCH" →
        1 ≤ countRT ((select_devices st pid cands solver).1) rid "SWITCH") ∧
      (hasCand cands rid "SOCKET" →
        countRT ((select_devices st pid cands solver).1) rid "SOCKET" ≤ 6) := by
  intro st pid solver hok cands b hsome rid hrid
  have hsel : (select_devices st pid cands solver).1 = selectedOf cands b := by
    simp [select_devices, hsome]
  rw [hsel]
  have hfeas := hok cands b hsome
  exact hfeas.2 rid hrid

theorem select_devices_respects_hardcoded_constraints_witness :
    fsSolver cands2 = some [true, false] ∧ "room_000" ∈ roomIdsOf cands2 ∧
    hasCand cands2 "room_000" "SWITCH" ∧
    1 ≤ countRT ((select_devices st0 "p" cands2 fsSolver).1) "room_000" "SWITCH" := by
  refine ⟨by decide, by decide, by unfold hasCand; decide, ?_⟩
  exact (select_devices_respects_hardcoded_constraints st0 "p" fsSolver fsSolverOk cands2
    [true, false] (by decide) "room_000" (by decide)).1 (by unfold hasCand; decide)

/-- C2 counterexample -/
theorem select_devices_ignores_configured_min_switches :
    SolverOk fsSolver ∧ rules2.min_switches = 2 ∧ "room_000" ∈ roomIdsOf cands2 ∧
    hasCand cands2 "room_000" "SWITCH" ∧
    countRT ((select_devices st0 "p" cands2 fsSolver).1) "room_000" "SWITCH" < rules2.min_switches :=
  ⟨fsSolverOk, rfl, by decide, by unfold hasCand; decide, by decide⟩

/-- C4 -/
theorem select_devices_empty_on_unsolved :
    ∀ (st : DBState) (pid : String) (cands : List Candidate) (solver : Solver),
    solver cands = none →
    (select_devices st pid cands solver).1 = [] ∧
    (select_devices st pid cands solver).2.devices pid = [] ∧
    max_time_in_seconds = 2 := by
  intro st pid cands solver h
  refine ⟨by simp [select_devices, h], by simp [select_devices, h], rfl⟩

theorem select_devices_empty_on_unsolved_witness :
    (select_devices st0 "p" [c0] (fun _ => none)).1 = [] ∧
    (select_devices st0 "p" [c0] (fun _ => none)).2.devices "p" = [] ∧
    max_time_in_seconds = 2 :=
  select_devices_empty_on_unsolved st0 "p" [c0] (fun _ => none) rfl

/-- C7 -/
theorem placement_deterministic :
    ∀ (rules : Rules) (st1 st2 : DBState) (pid : String),
    st1.rooms pid = st2.rooms pid → st1.openings pid = st2.openings pid →
    generate_candidates rules st1 pid = generate_candidates rules st2 pid ∧
    ∀ (solver : Solver) (cands : List Candidate),
      (select_devices st1 pid cands solver).1 = (select_devices st2 pid cands solver).1 := by
  intro rules st1 st2 pid h1 h2
  constructor
  · simp only [generate_candidates, rooms_as_polygons, gen_room, openings_for_room, h1, h2]
  · intro solver cands
    rfl

theorem placement_deterministic_witness :
    st6.rooms "p" = st7.rooms "p" ∧ st6.openings "p" = st7.openings "p" ∧
    generate_candidates rulesD st6 "p" = generate_candidates rulesD st7 "p" ∧
    (select_devices st6 "p" cands2 fsSolver).1 = (select_devices st7 "p" cands2 fsSolver).1 := by
  have h := placement_deterministic rulesD st6 st7 "p" (by decide) (by decide)
  exact ⟨by decide, by decide, h.1, h.2 fsSolver cands2⟩

/-- C9 amended -/
theorem select_devices_state_update :
    ∀ (st : DBState) (pid : String) (cands : List Candidate) (solver : Solver),
    (select_devices st pid cands solver).2.candidates pid = cands ∧
    (select_devices st pid cands solver).2.devices pid = (select_devices st pid cands solver).1 ∧
    (select_devices st pid cands solver).2.rooms = st.rooms ∧
    (select_devices st pid cands solver).2.routes = st.routes ∧
    (select_devices st pid cands solver).2.openings = st.openings ∧
    ∀ q, q ≠ pid →
      (select_devices st pid cands solver).2.candidates q = st.candidates q ∧
      (select_devices st pid cands solver).2.devices q = st.devices q := by
  intro st pid cands solver
  refine ⟨by simp [select_devices], by simp [select_devices], rfl, rfl, rfl, ?_⟩
  intro q hq
  exact ⟨by simp [select_devices, hq], by simp [select_devices, hq]⟩

theorem select_devices_state_update_witness :
    (select_devices st0 "p" [c0] fsSolver).2.candidates "p" = [c0] ∧
    (select_devices st0 "p" [c0] fsSolver).2.candidates "other" = st0.candidates "other" := by
  have h := select_devices_state_update st0 "p" [c0] fsSolver
  exact ⟨h.1, (h.2.2.2.2.2 "other" (by decide)).1⟩

/-- C9 counterexample -/
theorem select_devices_persists_candidates :
    (select_devices st0 "p" [c0] fsSolver).2.candidates "p" ≠ st0.candidates "p" := by
  decide

theorem forall2_map_self {α β : Type} (P : α → β → Prop) (f : α → β) :
    ∀ (l : List α), (∀ a ∈ l, P a (f a)) → List.Forall₂ P l (l.map f) := by
  intro l
  induction l with
  | nil => intro _; exact List.Forall₂.nil
  | cons a tl ih =>
    intro h
    exact List.Forall₂.cons (h a (List.mem_cons_self _ _))
      (ih (fun x hx => h x (List.mem_cons_of_mem _ hx)))

theorem replace_ends_head {α : Type} (l : List α) (a b : α) (h : 2 ≤ l.length) :
    (replaceLast (replaceFirst l a) b).head? = some a := by
  match l with
  | [] => simp at h
  | [x] => simp at h
  | x :: y :: t =>
    simp [replaceFirst, replaceLast, List.dropLast]

theorem replace_ends_last {α : Type} (l : List α) (a b : α) (h : l ≠ []) :
    (replaceLast (replaceFirst l a) b).getLast? = some b := by
  match l with
  | [] => exact absurd rfl h
  | x :: t =>
    simp [replaceFirst, replaceLast]

theorem attempt_route_some (wm : Mask) (free : Option Mask) (fpO : FpOracle)
    (p panel : QPoint) (a : ℕ × ℕ) (coords : List QPoint)
    (h : attempt_route wm free fpO p panel a = some coords) :
    ∃ l : List QPoint, 2 ≤ l.length ∧ coords = replaceLast (replaceFirst l p) panel := by
  unfold attempt_route at h
  split at h
  · split at h
    · split at h
      · simp at h
      · split at h
        · rename_i pathv hpath hlen hpos
          refine ⟨pathv.map (fun c => cell_to_point c (build_occupancy wm free fpO a.1 a.2).2),
            ?_, (Option.some_inj.mp h).symm⟩
          rw [List.length_map]
          omega
        · simp at h
    · simp at h
  · simp at h

theorem tryAttempts_some (wm : Mask) (free : Option Mask) (fpO : FpOracle)
    (p panel : QPoint) :
    ∀ (L : List (ℕ × ℕ)) (coords : List QPoint),
    tryAttempts wm free fpO p panel L = some coords →
    ∃ l : List QPoint, 2 ≤ l.length ∧ coords = replaceLast (replaceFirst l p) panel := by
  intro L
  induction L with
  | nil => intro coords h; simp [tryAttempts] at h
  | cons a rest ih =>
    intro coords h
    rw [tryAttempts] at h
    rcases ha : attempt_route wm free fpO p panel a with _ | c <;> rw [ha] at h
    · simp only [Option.orElse] at h
      exact ih coords h
    · simp only [Option.orElse] at h
      exact Option.some_inj.mp h ▸ attempt_route_some wm free fpO p panel a c ha

theorem straight_route_head (ppm : Option ℚ) (d : Candidate) :
    (straight_route ppm d).2.1.head? = some d.2.2 := rfl

theorem straight_route_last (ppm : Option ℚ) (d : Candidate) :
    (straight_route ppm d).2.1.getLast? = some DEFAULT_PANEL_ANCHOR_PX := by
  simp [straight_route]

theorem route_device_head (wm : Mask) (free : Option Mask) (fpO : FpOracle)
    (ppm : Option ℚ) (d : Candidate) :
    (route_device wm free fpO ppm d).2.1.head? = some d.2.2 := by
  unfold route_device
  rcases htry : tryAttempts wm free fpO d.2.2 DEFAULT_PANEL_ANCHOR_PX attempts with _ | coords
  · simp [htry]
  · simp only [htry, Option.getD_some]
    obtain ⟨l, hl2, hceq⟩ := tryAttempts_some wm free fpO d.2.2 DEFAULT_PANEL_ANCHOR_PX attempts coords htry
    rw [hceq]
    exact replace_ends_head l _ _ hl2

theorem route_device_last (wm : Mask) (free : Option Mask) (fpO : FpOracle)
    (ppm : Option ℚ) (d : Candidate) :
    (route_device wm free fpO ppm d).2.1.getLast? = some DEFAULT_PANEL_ANCHOR_PX := by
  unfold route_device
  rcases htry : tryAttempts wm free fpO d.2.2 DEFAULT_PANEL_ANCHOR_PX attempts with _ | coords
  · simp [htry]
  · simp only [htry, Option.getD_some]
    obtain ⟨l, hl2, hceq⟩ := tryAttempts_some wm free fpO d.2.2 DEFAULT_PANEL_ANCHOR_PX attempts coords htry
    rw [hceq]
    exact replace_ends_last l _ _ (by intro hnil; rw [hnil] at hl2; simp at hl2)

/-- C1: every route produced by `route_all` starts at its device's
position and ends at the panel anchor (exactly, hence within any
epsilon), with routes in one-to-one order-preserving correspondence with
the devices. -/
theorem route_all_endpoints :
    ∀ (devices : List Candidate) (walls : Option Mask) (free : Option Mask)
      (fpO : FpOracle) (ppm : Option ℚ),
    List.Forall₂ (fun (d : Candidate) (r : Route) =>
        r.2.1.head? = some d.2.2 ∧ r.2.1.getLast? = some DEFAULT_PANEL_ANCHOR_PX)
      devices (route_all devices walls free fpO ppm) := by
  intro devices walls free fpO ppm
  unfold route_all
  by_cases hdev : devices.isEmpty
  · rw [if_pos hdev]
    rw [List.isEmpty_iff.mp hdev]
    exact List.Forall₂.nil
  · rw [if_neg hdev]
    cases walls with
    | none =>
      exact forall2_map_self _ _ devices
        (fun d _ => ⟨straight_route_head ppm d, straight_route_last ppm d⟩)
    | some wm =>
      exact forall2_map_self _ _ devices
        (fun d _ => ⟨route_device_head wm free fpO ppm d, route_device_last wm free fpO ppm d⟩)

/-- C5 amended: the panel anchor used for routing is unconditionally the
fixed default coordinate; every route ends there. -/
theorem routes_always_end_at_default_anchor :
    ∀ (devices : List Candidate) (walls : Option Mask) (free : Option Mask)
      (fpO : FpOracle) (ppm : Option ℚ) (r : Route),
    r ∈ route_all devices walls free fpO ppm →
    r.2.1.getLast? = some DEFAULT_PANEL_ANCHOR_PX := by
  intro devices walls free fpO ppm r hr
  unfold route_all at hr
  by_cases hdev : devices.isEmpty
  · rw [if_pos hdev] at hr
    simp at hr
  · rw [if_neg hdev] at hr
    cases walls with
    | none =>
      obtain ⟨d, _, rfl⟩ := List.mem_map.mp hr
      exact straight_route_last ppm d
    | some wm =>
      obtain ⟨d, _, rfl⟩ := List.mem_map.mp hr
      exact route_device_last wm free fpO ppm d

section RatEvalPlacement

attribute [local semireducible] Rat.add Rat.mul Rat.inv Rat.sub

/-- C6 amended -/
theorem switch_offset_lands_inside_when_possible :
    ∀ (room : List QPoint) (base : QPoint) (seg : Seg),
    (containsPoint room (offset_cands room base seg).1 = true ∨
      containsPoint room (offset_cands room base seg).2 = true) →
    containsPoint room (offset_inside room base seg) = true := by
  intro room base seg h
  unfold offset_inside
  by_cases h1 : containsPoint room (offset_cands room base seg).1
  · simp [h1]
  · rcases h with h | h
    · exact absurd h h1
    · simp [h1, h]

theorem switch_offset_lands_inside_when_possible_witness :
    containsPoint squareRoom (offset_cands squareRoom (5, 0) ((3, 0), (7, 0))).1 = true ∧
    containsPoint squareRoom (offset_inside squareRoom (5, 0) ((3, 0), (7, 0))) = true := by
  refine ⟨by decide, ?_⟩
  exact switch_offset_lands_inside_when_possible squareRoom (5, 0) ((3, 0), (7, 0))
    (Or.inl (by decide))

/-- C6 counterexample -/
theorem switch_candidate_can_fall_outside_room :
    ("SWITCH", "room_000", ((20 : ℚ), (5 : ℚ))) ∈ generate_candidates rulesD st6 "p" ∧
    containsPoint squareRoom (20, 5) = false ∧
    rooms_as_polygons st6 "p" = [squareRoom] ∧
    farDoor ∈ openings_for_room st6 "p" "room_000" ∧
    farDoor.kind = "door" ∧ farDoor.seg ≠ none := by
  refine ⟨by decide, by decide, by decide, by decide, rfl, by decide⟩

end RatEvalPlacement

theorem resize_idx_lt (y nh mh : ℕ) (hy : y < nh) (hm : 0 < mh) : y * mh / nh < mh := by
  have hnh : 0 < nh := by omega
  rw [Nat.div_lt_iff_lt_mul hnh]
  calc y * mh < nh * mh := Nat.mul_lt_mul_of_pos_right hy hm
    _ = mh * nh := Nat.mul_comm _ _

theorem boolMask_all (walls : Mask) (hpx : ∀ y x, 0 < walls.px y x) :
    ∀ y x, (boolMask walls).blocked y x = true := by
  intro y x
  simp [boolMask, hpx]

theorem dilate_all (m : Grid) (d : ℕ)
    (hall : ∀ y x, m.blocked y x = true) :
    ∀ y x, y < m.h → x < m.w → (dilateG m d).blocked y x = true := by
  intro y x hy hx
  simp only [dilateG, List.any_eq_true]
  refine ⟨d, by simp; omega, d, by simp; omega, ?_⟩
  have h1 : ((y : ℤ) + d - d) = (y : ℤ) := by ring
  have h2 : ((x : ℤ) + d - d) = (x : ℤ) := by ring
  rw [h1, h2]
  simp [hall, hy, hx]

theorem build_occ_h (walls : Mask) (free : Option Mask) (fpO : FpOracle) (d0 d1 : ℕ) :
    (build_occupancy walls free fpO d0 d1).1.h = max 1 (walls.h / max 2 d0) := by
  cases free with
  | none =>
    rcases hfp : fpO (if 0 < d1 then dilateG (boolMask walls) d1 else boolMask walls) with _ | f <;>
      simp [build_occupancy, hfp]
  | some fs => simp [build_occupancy]

theorem build_occ_w (walls : Mask) (free : Option Mask) (fpO : FpOracle) (d0 d1 : ℕ) :
    (build_occupancy walls free fpO d0 d1).1.w = max 1 (walls.w / max 2 d0) := by
  cases free with
  | none =>
    rcases hfp : fpO (if 0 < d1 then dilateG (boolMask walls) d1 else boolMask walls) with _ | f <;>
      simp [build_occupancy, hfp]
  | some fs => simp [build_occupancy]

theorem build_occ_msmall (walls : Mask) (free : Option Mask) (fpO : FpOracle) (d0 d1 : ℕ)
    (y x : ℕ)
    (hms : (resizeG (if 0 < d1 then dilateG (boolMask walls) d1 else boolMask walls)
      (max 1 (walls.h / max 2 d0)) (max 1 (walls.w / max 2 d0))).blocked y x = true) :
    (build_occupancy walls free fpO d0 d1).1.blocked y x = true := by
  cases free with
  | none =>
    rcases hfp : fpO (if 0 < d1 then dilateG (boolMask walls) d1 else boolMask walls) with _ | f <;>
      simp [build_occupancy, hfp, hms]
  | some fs => simp [build_occupancy, hms]

theorem build_occ_blocked (walls : Mask) (free : Option Mask) (fpO : FpOracle)
    (d0 d1 : ℕ) (hh : 0 < walls.h) (hw : 0 < walls.w)
    (hpx : ∀ y x, 0 < walls.px y x) :
    ∀ y x, y < (build_occupancy walls free fpO d0 d1).1.h →
      x < (build_occupancy walls free fpO d0 d1).1.w →
      (build_occupancy walls free fpO d0 d1).1.blocked y x = true := by
  intro y x hy hx
  rw [build_occ_h] at hy
  rw [build_occ_w] at hx
  apply build_occ_msmall
  simp only [resizeG]
  have hdim : (if 0 < d1 then dilateG (boolMask walls) d1 else boolMask walls).h = walls.h ∧
      (if 0 < d1 then dilateG (boolMask walls) d1 else boolMask walls).w = walls.w := by
    by_cases hd : 0 < d1 <;> simp [hd, dilateG, boolMask]
  rw [hdim.1, hdim.2]
  have hyy : y * walls.h / max 1 (walls.h / max 2 d0) < walls.h :=
    resize_idx_lt _ _ _ hy hh
  have hxx : x * walls.w / max 1 (walls.w / max 2 d0) < walls.w :=
    resize_idx_lt _ _ _ hx hw
  by_cases hd : 0 < d1
  · rw [if_pos hd]
    exact dilate_all (boolMask walls) d1 (boolMask_all walls hpx) _ _
      (by simpa [dilateG, boolMask] using hyy) (by simpa [dilateG, boolMask] using hxx)
  · rw [if_neg hd]
    exact boolMask_all walls hpx _ _

theorem freeAt_false (g : Grid)
    (hall : ∀ y x, y < g.h → x < g.w → g.blocked y x = true) :
    ∀ c, freeAt g c = false := by
  intro c
  unfold freeAt inb blk
  by_cases h1 : 0 ≤ c.1
  · by_cases h2 : c.1 < (g.w : ℤ)
    · by_cases h3 : 0 ≤ c.2
      · by_cases h4 : c.2 < (g.h : ℤ)
        · have hxw : c.1.toNat < g.w := by omega
          have hyh : c.2.toNat < g.h := by omega
          simp [h1, h2, h3, h4, hall c.2.toNat c.1.toNat hyh hxw]
        · simp [h4]
      · simp [h3]
    · simp [h2]
  · simp [h1]

theorem findSome?_none_of {α β : Type} (f : α → Option β) :
    ∀ (l : List α), (∀ x ∈ l, f x = none) → l.findSome? f = none := by
  intro l
  induction l with
  | nil => intro _; rfl
  | cons a tl ih =>
    intro h
    rw [List.findSome?_cons, h a (List.mem_cons_self _ _)]
    exact ih (fun x hx => h x (List.mem_cons_of_mem _ hx))

theorem ringScan_none (g : Grid) (c : Cell)
    (htry : ∀ c' : Cell, tryCell g c' = none) (r : ℕ) : ringScan g c r = none := by
  simp only [ringScan]
  rw [findSome?_none_of _ _ (fun dx _ => findSome?_none_of _ _ (fun dy _ => htry _))]
  rw [findSome?_none_of _ _ (fun dy _ => findSome?_none_of _ _ (fun dx _ => htry _))]

theorem nearest_free_cell_none (g : Grid)
    (hfree : ∀ c, freeAt g c = false) (c : Cell) (r : ℕ) :
    nearest_free_cell g c r = none := by
  unfold nearest_free_cell
  rw [hfree c]
  simp only [Bool.false_eq_true, if_false]
  apply findSome?_none_of
  intro r0 _
  apply ringScan_none
  intro c'
  unfold tryCell
  rw [hfree c']
  simp

theorem attempt_route_all_blocked (walls : Mask) (free : Option Mask) (fpO : FpOracle)
    (hh : 0 < walls.h) (hw : 0 < walls.w) (hpx : ∀ y x, 0 < walls.px y x) :
    ∀ (p panel : QPoint) (a : ℕ × ℕ), attempt_route walls free fpO p panel a = none := by
  intro p panel a
  have hfree := freeAt_false _ (build_occ_blocked walls free fpO a.1 a.2 hh hw hpx)
  have h35 := nearest_free_cell_none _ hfree
    (point_to_cell p (build_occupancy walls free fpO a.1 a.2).2) 35
  unfold attempt_route
  split
  · rename_i s g hs hg
    rw [h35] at hs
    exact absurd hs (by simp)
  · rfl

theorem tryAttempts_all_blocked (walls : Mask) (free : Option Mask) (fpO : FpOracle)
    (hh : 0 < walls.h) (hw : 0 < walls.w) (hpx : ∀ y x, 0 < walls.px y x)
    (p panel : QPoint) :
    ∀ L, tryAttempts walls free fpO p panel L = none := by
  intro L
  induction L with
  | nil => rfl
  | cons a rest ih =>
    rw [tryAttempts, attempt_route_all_blocked walls free fpO hh hw hpx p panel a]
    simp only [Option.orElse]
    exact ih

/-- C3: with a missing or unreadable walls raster, and likewise with a
fully blocked raster such as the all-blocked 1 x 1 mask, `route_all`
returns exactly one straight two-point route per device (the embedding
is total, so no exception can arise). -/
theorem route_all_fallback_guarantee :
    (∀ (devices : List Candidate) (free : Option Mask) (fpO : FpOracle) (ppm : Option ℚ),
      route_all devices none free fpO ppm = devices.map (straight_route ppm)) ∧
    (∀ (walls : Mask), 0 < walls.h → 0 < walls.w → (∀ y x, 0 < walls.px y x) →
      ∀ (devices : List Candidate) (free : Option Mask) (fpO : FpOracle) (ppm : Option ℚ),
      route_all devices (some walls) free fpO ppm = devices.map (straight_route ppm)) := by
  constructor
  · intro devices free fpO ppm
    unfold route_all
    by_cases hdev : devices.isEmpty
    · rw [if_pos hdev, List.isEmpty_iff.mp hdev]
      rfl
    · rw [if_neg hdev]
  · intro walls hh hw hpx devices free fpO ppm
    unfold route_all
    by_cases hdev : devices.isEmpty
    · rw [if_pos hdev, List.isEmpty_iff.mp hdev]
      rfl
    · rw [if_neg hdev]
      apply List.map_congr_left
      intro d _
      simp only [route_device, straight_route]
      rw [tryAttempts_all_blocked walls free fpO hh hw hpx d.2.2 DEFAULT_PANEL_ANCHOR_PX attempts]
      rfl

theorem route_all_fallback_guarantee_witness :
    route_all [dev0] (some allBlocked1) none fpO0 none = [straight_route none dev0] ∧
    (straight_route none dev0).2.1 = [dev0.2.2, DEFAULT_PANEL_ANCHOR_PX] := by
  constructor
  · exact route_all_fallback_guarantee.2 allBlocked1 (by decide) (by decide)
      (by intro y x; simp [allBlocked1]) [dev0] none fpO0 none
  · rfl

section RatEvalRouting

attribute [local semireducible] Rat.add Rat.mul Rat.inv Rat.sub

set_option maxRecDepth 40000

/-- C5 counterexample -/
theorem panel_anchor_defaults_despite_rooms :
    (route_all [dev0] none none fpO0 none).map (fun r => r.2.1.getLast?) =
      [some ((30 : ℚ), (30 : ℚ))] ∧
    rooms_as_polygons st6 "p" = [squareRoom] ∧
    centroidQ squareRoom = ((5 : ℚ), (5 : ℚ)) ∧
    offset_inside squareRoom (segMid ((20, 0), (20, 10))) ((20, 0), (20, 10)) =
      ((20 : ℚ), (5 : ℚ)) ∧
    farDoor.roomRefs.length ≤ 1 ∧
    ((30 : ℚ), (30 : ℚ)) ≠ ((5 : ℚ), (5 : ℚ)) ∧
    ((30 : ℚ), (30 : ℚ)) ≠ ((20 : ℚ), (5 : ℚ)) := by
  refine ⟨by decide, by decide, by decide, by decide, by decide, by decide, by decide⟩

/-- C5 amended witness -/
theorem routes_always_end_at_default_anchor_witness :
    (straight_route none dev0).2.1.getLast? = some DEFAULT_PANEL_ANCHOR_PX :=
  routes_always_end_at_default_anchor [dev0] none none fpO0 none
    (straight_route none dev0) (by decide)

end RatEvalRouting

theorem short_replace_len (path : List Cell) (f : Cell → QPoint) (p panel : QPoint)
    (h : path.length < 2) :
    polylineLength (replaceLast (replaceFirst (path.map f) p) panel) = 0 := by
  match path with
  | [] => rfl
  | [c] => rfl
  | c1 :: c2 :: t => simp [List.length_cons] at h; omega

theorem attempt_route_eq_spec (wm : Mask) (free : Option Mask) (fpO : FpOracle)
    (p panel : QPoint) (a : ℕ × ℕ) :
    attempt_route wm free fpO p panel a = grid_attempt_spec wm free fpO p panel a := by
  unfold attempt_route grid_attempt_spec
  simp only [specDeviceRadius, specPanelRadius]
  rcases hs : nearest_free_cell (build_occupancy wm free fpO a.1 a.2).1
      (point_to_cell p (build_occupancy wm free fpO a.1 a.2).2) 35 with _ | s
  · rfl
  rcases hg : nearest_free_cell (build_occupancy wm free fpO a.1 a.2).1
      (point_to_cell panel (build_occupancy wm free fpO a.1 a.2).2) 60 with _ | g
  · rfl
  rcases hp : astar (build_occupancy wm free fpO a.1 a.2).1 s g with _ | path
  · simp only [hp]
  · simp only [hp]
    by_cases hlen : path.length < 2
    · rw [if_pos hlen]
      rw [short_replace_len path _ p panel hlen]
      simp
    · rw [if_neg hlen]

theorem tryAttempts_eq_findSome (wm : Mask) (free : Option Mask) (fpO : FpOracle)
    (p panel : QPoint) :
    ∀ L, tryAttempts wm free fpO p panel L =
      L.findSome? (grid_attempt_spec wm free fpO p panel) := by
  intro L
  induction L with
  | nil => rfl
  | cons a rest ih =>
    rw [tryAttempts, List.findSome?_cons, attempt_route_eq_spec]
    rcases grid_attempt_spec wm free fpO p panel a with _ | c
    · simp only [Option.orElse]
      exact ih
    · simp only [Option.orElse]

/-- C8: the per-device grid routing equals the specification's
description (the ladder in the stated order, snap radii 35/60, the
8-connected A* with orthogonal cost 1 and diagonal cost sqrt 2 and the
Euclidean heuristic, first nonzero-length acceptance with end-point
replacement, and division of the reported length by the known scale). -/
theorem grid_router_matches_spec :
    (∀ (wm : Mask) (free : Option Mask) (fpO : FpOracle) (ppm : Option ℚ) (d : Candidate),
      route_device wm free fpO ppm d = route_device_spec wm free fpO ppm d) ∧
    attempts = specLadder ∧ nbrs = specNbrs := by
  refine ⟨?_, rfl, rfl⟩
  intro wm free fpO ppm d
  simp only [route_device, route_device_spec]
  rw [tryAttempts_eq_findSome wm free fpO d.2.2 DEFAULT_PANEL_ANCHOR_PX attempts]
  rfl

theorem alookup_cons {α : Type} (a : Cell × α) (l : List (Cell × α)) (c : Cell) :
    alookup (a :: l) c = if a.1 == c then some a.2 else alookup l c := by
  by_cases h : a.1 == c <;> simp [alookup, List.find?_cons, h]

theorem alookup_mem {α : Type} (l : List (Cell × α)) (c : Cell) (v : α)
    (h : alookup l c = some v) : (c, v) ∈ l := by
  unfold alookup at h
  rcases hf : l.find? (fun e => e.1 == c) with _ | e
  · rw [hf] at h; simp at h
  · rw [hf] at h
    simp at h
    have hmem := List.mem_of_find?_eq_some hf
    have hbeq := List.find?_some hf
    have hc : e.1 = c := by simpa using hbeq
    have : (c, v) = e := by
      rw [← hc, ← h]
    rw [this]
    exact hmem

theorem alookup_mono {α : Type} (a : Cell × α) (l : List (Cell × α)) (c : Cell)
    (h : alookup l c ≠ none) : alookup (a :: l) c ≠ none := by
  rw [alookup_cons]
  by_cases hb : a.1 == c <;> simp [hb, h]

theorem foldlMin_mem (tl : List (ℚ × ℚ × Cell)) :
    ∀ hd, (tl.foldl (fun a b => if prioLt b a then b else a) hd) = hd ∨
      (tl.foldl (fun a b => if prioLt b a then b else a) hd) ∈ tl := by
  induction tl with
  | nil => intro hd; left; rfl
  | cons x xs ih =>
    intro hd
    rw [List.foldl_cons]
    rcases ih (if prioLt x hd then x else hd) with h | h
    · rw [h]
      by_cases hp : prioLt x hd
      · right; rw [if_pos hp]; exact List.mem_cons_self _ _
      · left; rw [if_neg hp]
    · right; exact List.mem_cons_of_mem _ h

theorem popMin_mem (l : List (ℚ × ℚ × Cell)) (m : ℚ × ℚ × Cell)
    (r : List (ℚ × ℚ × Cell)) (h : popMin l = some (m, r)) : m ∈ l := by
  match l with
  | [] => simp [popMin] at h
  | hd :: tl =>
    simp only [popMin] at h
    obtain ⟨hm, _⟩ := Prod.mk.injEq .. ▸ (Option.some_inj.mp h)
    rcases foldlMin_mem tl hd with h' | h'
    · rw [← hm, h']; exact List.mem_cons_self _ _
    · rw [← hm]; exact List.mem_cons_of_mem _ h'

theorem popMin_rest (l : List (ℚ × ℚ × Cell)) (m : ℚ × ℚ × Cell)
    (r : List (ℚ × ℚ × Cell)) (h : popMin l = some (m, r)) : ∀ x ∈ r, x ∈ l := by
  match l with
  | [] => simp [popMin] at h
  | hd :: tl =>
    simp only [popMin] at h
    obtain ⟨_, hr⟩ := Prod.mk.injEq .. ▸ (Option.some_inj.mp h)
    intro x hx
    rw [← hr] at hx
    exact List.mem_of_mem_erase hx

theorem adj8_step (c : Cell) (d : ℤ × ℤ)
    (hd : d ∈ ([(1, 0), (-1, 0), (0, 1), (0, -1), (1, 1), (1, -1), (-1, 1), (-1, -1)] : List (ℤ × ℤ))) :
    adj8 c (c.1 + d.1, c.2 + d.2) := by
  unfold adj8
  have h1 : c.1 + d.1 - c.1 = d.1 := by ring
  have h2 : c.2 + d.2 - c.2 = d.2 := by ring
  rw [h1, h2]
  simpa using hd

section NbrsFacts

attribute [local semireducible] Rat.add Rat.mul Rat.inv Rat.sub

theorem nbrs_ok : ∀ nb ∈ nbrs, 0 < nb.2.2 ∧ (nb.1, nb.2.1) ∈
    ([(1, 0), (-1, 0), (0, 1), (0, -1), (1, 1), (1, -1), (-1, 1), (-1, -1)] : List (ℤ × ℤ)) := by
  decide

end NbrsFacts

theorem relax_inv (g0 : Grid) (s gl cur : Cell) (g : ℚ) (st : AS) (nb : ℤ × ℤ × ℚ)
    (hinv : AInv g0 s st) (hcf : freeAt g0 cur = true) (hg0 : 0 ≤ g)
    (hpar : cur = s ∨ alookup st.cameFrom cur ≠ none) (hnb : nb ∈ nbrs) :
    AInv g0 s (relax g0 gl cur g st nb) ∧
    (cur = s ∨ alookup (relax g0 gl cur g st nb).cameFrom cur ≠ none) := by
  obtain ⟨⟨hcf1, hcf23⟩, hopen, hgs, hgnn⟩ := hinv
  obtain ⟨hcf2, hcfs⟩ := hcf23
  obtain ⟨hcost, hdir⟩ := nbrs_ok nb hnb
  unfold relax
  by_cases hfree : (inb g0 (cur.1 + nb.1, cur.2 + nb.2.1) &&
      !blk g0 (cur.1 + nb.1, cur.2 + nb.2.1)) = true
  · rw [if_pos hfree]
    by_cases hlt : g + nb.2.2 < alookupD st.gsc (cur.1 + nb.1, cur.2 + nb.2.1) ((10 : ℚ) ^ 18)
    · rw [if_pos hlt]
      have hfreeAt : freeAt g0 (cur.1 + nb.1, cur.2 + nb.2.1) = true := hfree
      have hng : (0 : ℚ) ≤ g + nb.2.2 := by linarith
      have hnxt_ne_s : ((cur.1 + nb.1, cur.2 + nb.2.1) : Cell) ≠ s := by
        intro heq
        rw [heq] at hlt
        have hz : alookupD st.gsc s ((10 : ℚ) ^ 18) = 0 := by
          simp [alookupD, hgs]
        rw [hz] at hlt
        linarith
      refine ⟨⟨⟨?_, ?_, ?_⟩, ?_, ?_, ?_⟩, ?_⟩
      · intro pr hpr
        rcases List.mem_cons.mp hpr with heq | hmem
        · subst heq
          exact ⟨hfreeAt, hcf, adj8_step cur (nb.1, nb.2.1) hdir⟩
        · exact hcf1 pr hmem
      · intro pr hpr
        rcases List.mem_cons.mp hpr with heq | hmem
        · subst heq
          rcases hpar with h | h
          · exact Or.inl h
          · exact Or.inr (alookup_mono _ _ _ h)
        · rcases hcf2 pr hmem with h | h
          · exact Or.inl h
          · exact Or.inr (alookup_mono _ _ _ h)
      · rw [alookup_cons]
        have : (((cur.1 + nb.1, cur.2 + nb.2.1) : Cell) == s) = false := by
          simpa using hnxt_ne_s
        rw [this]
        simpa using hcfs
      · intro e he
        rcases List.mem_cons.mp he with heq | hmem
        · subst heq
          refine ⟨hfreeAt, hng, Or.inr ?_⟩
          rw [alookup_cons]
          simp
        · obtain ⟨he1, he2, he3⟩ := hopen e hmem
          refine ⟨he1, he2, ?_⟩
          rcases he3 with h | h
          · exact Or.inl h
          · exact Or.inr (alookup_mono _ _ _ h)
      · rw [alookup_cons]
        have : (((cur.1 + nb.1, cur.2 + nb.2.1) : Cell) == s) = false := by
          simpa using hnxt_ne_s
        rw [this]
        exact hgs
      · intro pr hpr
        rcases List.mem_cons.mp hpr with heq | hmem
        · subst heq
          exact hng
        · exact hgnn pr hmem
      · rcases hpar with h | h
        · exact Or.inl h
        · exact Or.inr (alookup_mono _ _ _ h)
    · rw [if_neg hlt]
      exact ⟨⟨⟨hcf1, hcf2, hcfs⟩, hopen, hgs, hgnn⟩, hpar⟩
  · rw [if_neg hfree]
    exact ⟨⟨⟨hcf1, hcf2, hcfs⟩, hopen, hgs, hgnn⟩, hpar⟩

theorem foldl_relax_inv (g0 : Grid) (s gl cur : Cell) (g : ℚ)
    (hcf : freeAt g0 cur = true) (hg0 : 0 ≤ g) :
    ∀ (L : List (ℤ × ℤ × ℚ)), (∀ nb ∈ L, nb ∈ nbrs) → ∀ (st : AS), AInv g0 s st →
    (cur = s ∨ alookup st.cameFrom cur ≠ none) →
    AInv g0 s (L.foldl (relax g0 gl cur g) st) := by
  intro L
  induction L with
  | nil => intro _ st hinv _; exact hinv
  | cons nb rest ih =>
    intro hmem st hinv hpar
    rw [List.foldl_cons]
    obtain ⟨hinv', hpar'⟩ := relax_inv g0 s gl cur g st nb hinv hcf hg0 hpar
      (hmem nb (List.mem_cons_self _ _))
    exact ih (fun x hx => hmem x (List.mem_cons_of_mem _ hx)) _ hinv' hpar'

theorem expand_inv (g0 : Grid) (s gl cur : Cell) (g : ℚ) (st : AS)
    (hinv : AInv g0 s st) (hcf : freeAt g0 cur = true) (hg0 : 0 ≤ g)
    (hpar : cur = s ∨ alookup st.cameFrom cur ≠ none) :
    AInv g0 s (expand g0 gl cur g st) :=
  foldl_relax_inv g0 s gl cur g hcf hg0 nbrs (fun _ h => h) st hinv hpar

theorem reconPath_spec (g0 : Grid) (s : Cell) (cf : List (Cell × Cell))
    (h1 : ∀ pr ∈ cf, freeAt g0 pr.1 = true ∧ freeAt g0 pr.2 = true ∧ adj8 pr.2 pr.1)
    (h3 : ∀ pr ∈ cf, pr.2 = s ∨ alookup cf pr.2 ≠ none)
    (_h4 : alookup cf s = none) :
    ∀ (fuel : ℕ) (cur : Cell) (acc path : List Cell),
    reconPath cf fuel cur acc = some path →
    (cur = s ∨ alookup cf cur ≠ none) → freeAt g0 cur = true →
    (∀ x ∈ acc, freeAt g0 x = true) → List.Chain' adj8 (cur :: acc) →
    path.head? = some s ∧ (∃ pre, path = pre ++ cur :: acc) ∧
      List.Chain' adj8 path ∧ ∀ x ∈ path, freeAt g0 x = true := by
  intro fuel
  induction fuel with
  | zero => intro cur acc path h; simp [reconPath] at h
  | succ f ih =>
    intro cur acc path h hcur hfree hacc hchain
    rw [reconPath] at h
    rcases hlk : alookup cf cur with _ | p
    · rw [hlk] at h
      have hpath : path = cur :: acc := (Option.some_inj.mp h).symm
      have hcs : cur = s := by
        rcases hcur with h' | h'
        · exact h'
        · exact absurd hlk h'
      subst hpath
      refine ⟨by rw [hcs]; rfl, ⟨[], rfl⟩, hchain, ?_⟩
      intro x hx
      rcases List.mem_cons.mp hx with rfl | hx'
      · exact hfree
      · exact hacc x hx'
    · rw [hlk] at h
      have hpr : ((cur, p) : Cell × Cell) ∈ cf := alookup_mem cf cur p hlk
      obtain ⟨hfc, hfp, hadj⟩ := h1 (cur, p) hpr
      have hppar : p = s ∨ alookup cf p ≠ none := h3 (cur, p) hpr
      have hacc' : ∀ x ∈ cur :: acc, freeAt g0 x = true := by
        intro x hx
        rcases List.mem_cons.mp hx with rfl | hx'
        · exact hfree
        · exact hacc x hx'
      have hchain' : List.Chain' adj8 (p :: cur :: acc) :=
        List.chain'_cons.mpr ⟨hadj, hchain⟩
      obtain ⟨hh, ⟨pre, hpre⟩, hc, hf⟩ := ih p (cur :: acc) path h hppar hfp hacc' hchain'
      refine ⟨hh, ⟨pre ++ [p], ?_⟩, hc, hf⟩
      rw [hpre]
      simp

theorem astarLoop_sound (g0 : Grid) (s gl : Cell) :
    ∀ (fuel : ℕ) (st : AS), AInv g0 s st → ∀ path, astarLoop g0 gl fuel st = some path →
    path.head? = some s ∧ path.getLast? = some gl ∧ List.Chain' adj8 path ∧
    ∀ c ∈ path, freeAt g0 c = true := by
  intro fuel
  induction fuel with
  | zero => intro st _ path h; simp [astarLoop] at h
  | succ f ih =>
    intro st hinv path h
    rw [astarLoop] at h
    rcases hpop : popMin st.openl with _ | er
    · simp only [hpop] at h
      exact absurd h (by simp)
    · obtain ⟨e, rest⟩ := er
      simp only [hpop] at h
      have hemem : e ∈ st.openl := popMin_mem _ _ _ hpop
      have hrest : ∀ x ∈ rest, x ∈ st.openl := popMin_rest _ _ _ hpop
      obtain ⟨hinv1, hinv2, hinv3, hinv4⟩ := hinv
      have hinv_rest : AInv g0 s { st with openl := rest } :=
        ⟨hinv1, fun x hx => hinv2 x (hrest x hx), hinv3, hinv4⟩
      by_cases hcl : e.2.2 ∈ st.closed
      · rw [if_pos hcl] at h
        exact ih _ hinv_rest path h
      · rw [if_neg hcl] at h
        obtain ⟨hefree, heg, hepar⟩ := hinv2 e hemem
        by_cases hgoal : e.2.2 = gl
        · rw [if_pos hgoal] at h
          rw [hgoal] at hefree hepar
          obtain ⟨hh, ⟨pre, hpre⟩, hc, hf⟩ :=
            reconPath_spec g0 s st.cameFrom hinv1.1 hinv1.2.1 hinv1.2.2 _ gl [] path h
              hepar hefree (by intro x hx; simp at hx) (List.chain'_singleton gl)
          refine ⟨hh, ?_, hc, hf⟩
          rw [hpre]
          simp
        · rw [if_neg hgoal] at h
          have hinv_exp : AInv g0 s (expand g0 gl e.2.2 e.2.1
              { st with openl := rest, closed := e.2.2 :: st.closed }) := by
            apply expand_inv
            · exact ⟨hinv1, fun x hx => hinv2 x (hrest x hx), hinv3, hinv4⟩
            · exact hefree
            · exact heg
            · exact hepar
          exact ih _ hinv_exp path h

/-- C10: whenever `_astar` returns a path it runs from the start cell to
the goal cell through pairwise 8-adjacent, in-bounds, unblocked cells;
it returns `None` whenever the start or goal is out of bounds or
blocked. -/
theorem astar_path_correct :
    ∀ (g0 : Grid) (s gl : Cell),
    ((inb g0 s = false ∨ inb g0 gl = false ∨ blk g0 s = true ∨ blk g0 gl = true) →
      astar g0 s gl = none) ∧
    (∀ path, astar g0 s gl = some path →
      path.head? = some s ∧ path.getLast? = some gl ∧ List.Chain' adj8 path ∧
      ∀ c ∈ path, inb g0 c = true ∧ blk g0 c = false) := by
  intro g0 s gl
  constructor
  · intro hbad
    unfold astar
    by_cases h1 : (!inb g0 s || !inb g0 gl) = true
    · rw [if_pos h1]
    · rw [if_neg h1]
      have h2 : (blk g0 s || blk g0 gl) = true := by
        rcases hbad with h | h | h | h
        · exact absurd (by simp [h]) h1
        · exact absurd (by simp [h]) h1
        · simp [h]
        · simp [h]
      rw [if_pos h2]
  · intro path hp
    unfold astar at hp
    by_cases h1 : (!inb g0 s || !inb g0 gl) = true
    · rw [if_pos h1] at hp
      exact absurd hp (by simp)
    · rw [if_neg h1] at hp
      by_cases h2 : (blk g0 s || blk g0 gl) = true
      · rw [if_pos h2] at hp
        exact absurd hp (by simp)
      · rw [if_neg h2] at hp
        simp only [Bool.or_eq_true, Bool.not_eq_true'] at h1 h2
        push_neg at h1 h2
        have hfrees : freeAt g0 s = true := by
          unfold freeAt
          simp [h1.1, h2.1]
        have hinv0 : AInv g0 s ⟨[(heur s gl, 0, s)], [(s, 0)], [], []⟩ := by
          refine ⟨⟨?_, ?_, ?_⟩, ?_, ?_, ?_⟩
          · intro pr hpr; simp at hpr
          · intro pr hpr; simp at hpr
          · rfl
          · intro e he
            simp only [List.mem_singleton] at he
            subst he
            exact ⟨hfrees, le_refl 0, Or.inl rfl⟩
          · rw [alookup_cons]
            simp
          · intro pr hpr
            simp only [List.mem_singleton] at hpr
            subst hpr
            exact le_refl 0
        obtain ⟨hh, hl, hc, hf⟩ := astarLoop_sound g0 s gl _ _ hinv0 path hp
        refine ⟨hh, hl, hc, ?_⟩
        intro c hcm
        have hfc := hf c hcm
        unfold freeAt at hfc
        simp only [Bool.and_eq_true, Bool.not_eq_true'] at hfc
        exact hfc

section RatEvalAstar

attribute [local semireducible] Rat.add Rat.mul Rat.inv Rat.sub

set_option maxRecDepth 100000
set_option maxHeartbeats 1000000

theorem astar_path_correct_witness :
    astar g2 (0, 0) (1, 0) = some [(0, 0), (1, 0)] ∧
    (([((0 : ℤ), (0 : ℤ)), (1, 0)] : List Cell).head? = some ((0 : ℤ), (0 : ℤ)) ∧
      ([((0 : ℤ), (0 : ℤ)), (1, 0)] : List Cell).getLast? = some ((1 : ℤ), (0 : ℤ)) ∧
      List.Chain' adj8 ([((0 : ℤ), (0 : ℤ)), (1, 0)] : List Cell) ∧
      ∀ c ∈ ([((0 : ℤ), (0 : ℤ)), (1, 0)] : List Cell), inb g2 c = true ∧ blk g2 c = false) ∧
    astar g2 (5, 5) (0, 0) = none :=
  ⟨by decide,
   (astar_path_correct g2 (0, 0) (1, 0)).2 [(0, 0), (1, 0)] (by decide),
   (astar_path_correct g2 (5, 5) (0, 0)).1 (Or.inl (by decide))⟩

end RatEvalAstar
